import Mathlib

/-!
Verification of the compilation memory statistic subsystem
(compilationMemoryStatistic.cpp): the per-thread arena peak tracker
(ArenaStatCounter), the method-keyed aggregate registry (MemStatTable)
and the sorted report (CompilationMemoryStatistic::print_all_by_size).

Machine integers: size_t fields are modelled as Nat; the C++ compound
assignment current += delta (size_t += ssize_t) wraps modulo 2^64 and is
modelled by addWrap; the debug-build assert in ArenaStatCounter::account
reads (ssize_t)_current, a twos-complement reinterpretation modelled by
toSigned64, and adds delta to it in 64-bit signed arithmetic, whose
wrap-on-overflow behavior is modelled by wrapS64.
External state read by update_c2_node_count (current compiler
thread, task, compiler type, and the live node count of the current C2
Compile object) is modelled by a CompileEnv record passed to account.
-/

/-- Compiler backend kinds (compilerDefinitions.hpp). -/
inductive CompilerType where
  | compiler_none
  | compiler_c1
  | compiler_c2
  | compiler_jvmci
deriving DecidableEq, Repr

/-- Arena allocation tags (Arena::Tag in arena.hpp). The account switch
distinguishes tag_ra and tag_node; all other tags are ignored. -/
inductive ArenaTag where
  | tag_other
  | tag_ra
  | tag_ha
  | tag_node
deriving DecidableEq, Repr

/-- External state read by ArenaStatCounter::update_c2_node_count.
compilerType is none when the thread has no task or the task has no
compiler (the null checks in the source); liveNodes models
Compile::current() and its live_nodes() count, none when the Compile
object is null. -/
structure CompileEnv where
  compilerType : Option CompilerType
  liveNodes : Option Nat
deriving DecidableEq, Repr

/-- Wrapping size_t addition of a signed delta: current += delta. -/
def addWrap (c : Nat) (d : Int) : Nat :=
  (((c : Int) + d) % (2 ^ 64 : Int)).toNat

/-- Reinterpretation of a size_t value as ssize_t (twos complement). -/
def toSigned64 (n : Nat) : Int :=
  if n < 2 ^ 63 then (n : Int) else (n : Int) - 2 ^ 64

/-- Reduction of an integer to the representable int64_t range by
twos-complement wrap-around: the value a 64-bit signed addition delivers
on mainstream hardware when it overflows (overflow is undefined behavior
in C++; the wrap is the concrete behavior of real builds). -/
def wrapS64 (x : Int) : Int :=
  ((x + 2 ^ 63) % 2 ^ 64) - 2 ^ 63

/-- The per-compiler-thread peak tracker ArenaStatCounter. -/
structure ArenaStatCounter where
  _current : Nat
  _start : Nat
  _peak : Nat
  _na : Nat
  _ra : Nat
  _na_at_peak : Nat
  _ra_at_peak : Nat
  _live_nodes_at_peak : Nat
deriving DecidableEq, Repr

/-- The default constructor ArenaStatCounter(): all fields zero. -/
def ArenaStatCounter.init : ArenaStatCounter :=
  ⟨0, 0, 0, 0, 0, 0, 0, 0⟩

/-- peak_since_start: _peak > _start ? _peak - _start : 0. -/
def ArenaStatCounter.peak_since_start (s : ArenaStatCounter) : Nat :=
  if s._start < s._peak then s._peak - s._start else 0

/-- start(): _peak = _start = _current. -/
def ArenaStatCounter.start (s : ArenaStatCounter) : ArenaStatCounter :=
  { s with _peak := s._current, _start := s._current }

/-- The value _live_nodes_at_peak takes after update_c2_node_count: the
external live node count when the active backend is C2 and a Compile
object is present, the old value otherwise. -/
def liveNodesCapture (env : CompileEnv) (old : Nat) : Nat :=
  if env.compilerType = some CompilerType.compiler_c2 then
    match env.liveNodes with
    | some n => n
    | none => old
  else old

/-- update_c2_node_count: overwrite _live_nodes_at_peak from the current
C2 compilation when one is active, otherwise leave it unchanged. -/
def ArenaStatCounter.update_c2_node_count (env : CompileEnv)
    (s : ArenaStatCounter) : ArenaStatCounter :=
  { s with _live_nodes_at_peak := liveNodesCapture env s._live_nodes_at_peak }

/-- account(delta, tag): update _current and the tag detail counter, and
on a new peak snapshot the detail counters and the C2 node count.
Returns the updated state and the rc flag (true when a new peak was set). -/
def ArenaStatCounter.account (s : ArenaStatCounter) (delta : Int)
    (tag : ArenaTag) (env : CompileEnv) : ArenaStatCounter × Bool :=
  let current := addWrap s._current delta
  let na := match tag with
    | ArenaTag.tag_node => addWrap s._na delta
    | _ => s._na
  let ra := match tag with
    | ArenaTag.tag_ra => addWrap s._ra delta
    | _ => s._ra
  let s1 : ArenaStatCounter := { s with _current := current, _na := na, _ra := ra }
  if s1._peak < current then
    (ArenaStatCounter.update_c2_node_count env
      { s1 with _peak := current, _na_at_peak := na, _ra_at_peak := ra }, true)
  else
    (s1, false)

/-- The debug-build underflow assert in account:
delta >= 0 || ((ssize_t)_current + delta) >= 0, as a Bool. The addition
(ssize_t)_current + delta is a 64-bit signed addition, so its result is
the twos-complement wrap of the integer sum (wrapS64). -/
def accountAssertOKb (s : ArenaStatCounter) (delta : Int) : Bool :=
  decide (0 ≤ delta) || decide (0 ≤ wrapS64 (toSigned64 s._current + delta))

/-- One account call: its delta, arena tag, and external environment. -/
structure AccountCall where
  delta : Int
  tag : ArenaTag
  env : CompileEnv
deriving DecidableEq, Repr

/-- Run a sequence of account calls, discarding the rc results. -/
def runAccounts (s : ArenaStatCounter) (cs : List AccountCall) : ArenaStatCounter :=
  cs.foldl (fun t c => (t.account c.delta c.tag c.env).1) s

/-- The underflow assert holds at every step of a call sequence. -/
def accountsOK : ArenaStatCounter → List AccountCall → Bool
  | _, [] => true
  | s, c :: rest =>
      accountAssertOKb s c.delta && accountsOK (s.account c.delta c.tag c.env).1 rest

/-- Sum of the deltas of the first n calls. -/
def deltasTakeSum (cs : List AccountCall) (n : Nat) : Int :=
  ((cs.take n).map AccountCall.delta).sum

/-- An operation on the tracker: start() or account(delta, tag). -/
inductive TrackerOp where
  | opStart
  | opAccount (delta : Int) (tag : ArenaTag) (env : CompileEnv)
deriving DecidableEq, Repr

/-- Run an interleaving of start and account operations. -/
def runOps (s : ArenaStatCounter) (ops : List TrackerOp) : ArenaStatCounter :=
  ops.foldl
    (fun t op => match op with
      | TrackerOp.opStart => t.start
      | TrackerOp.opAccount d tag env => (t.account d tag env).1) s

/-- The underflow assert holds at every account step of an interleaving. -/
def opsOK : ArenaStatCounter → List TrackerOp → Bool
  | _, [] => true
  | s, TrackerOp.opStart :: rest => opsOK s.start rest
  | s, TrackerOp.opAccount d tag env :: rest =>
      accountAssertOKb s d && opsOK (s.account d tag env).1 rest

/-- An operation whose environment does not expose the C2 backend. -/
def opNonC2 : TrackerOp → Bool
  | TrackerOp.opStart => true
  | TrackerOp.opAccount _ _ env =>
      decide (env.compilerType ≠ some CompilerType.compiler_c2)

/-! Projection lemmas for account. -/

theorem account_fst_current (s : ArenaStatCounter) (d : Int) (tag : ArenaTag)
    (env : CompileEnv) : ((s.account d tag env).1)._current = addWrap s._current d := by
  unfold ArenaStatCounter.account
  dsimp only
  split <;> rfl

theorem account_fst_start (s : ArenaStatCounter) (d : Int) (tag : ArenaTag)
    (env : CompileEnv) : ((s.account d tag env).1)._start = s._start := by
  unfold ArenaStatCounter.account
  dsimp only
  split <;> rfl

theorem account_fst_peak (s : ArenaStatCounter) (d : Int) (tag : ArenaTag)
    (env : CompileEnv) : ((s.account d tag env).1)._peak =
      (if s._peak < addWrap s._current d then addWrap s._current d else s._peak) := by
  unfold ArenaStatCounter.account ArenaStatCounter.update_c2_node_count
  dsimp only
  split <;> simp_all

theorem account_fst_live (s : ArenaStatCounter) (d : Int) (tag : ArenaTag)
    (env : CompileEnv) : ((s.account d tag env).1)._live_nodes_at_peak =
      (if s._peak < addWrap s._current d
       then liveNodesCapture env s._live_nodes_at_peak
       else s._live_nodes_at_peak) := by
  unfold ArenaStatCounter.account ArenaStatCounter.update_c2_node_count
  dsimp only
  split <;> simp_all

/-! The aggregate registry: method identities, entries, and the table. -/

/-- FullMethodName: the triple of interned symbols (klass, name, signature).
Symbols are interned, so pointer equality is identity; each Symbol pointer
is modelled as a Nat. -/
structure FullMethodName where
  _k : Nat
  _m : Nat
  _s : Nat
deriving DecidableEq, Repr

/-- MemStatEntry: one aggregate record per method identity. The double
timestamp os::elapsedTime() and the Thread pointer are external inputs,
modelled as opaque Nat values supplied to add. -/
structure MemStatEntry where
  _method : FullMethodName
  _comptype : CompilerType
  _time : Nat
  _num_recomp : Nat
  _thread : Nat
  _total : Nat
  _na_at_peak : Nat
  _ra_at_peak : Nat
  _live_nodes_at_peak : Nat
deriving DecidableEq, Repr

/-- The constructor MemStatEntry(FullMethodName): comptype compiler_c1,
zero time, zero recompilations, null thread, zero measurements. -/
def MemStatEntry.new (fmn : FullMethodName) : MemStatEntry :=
  ⟨fmn, CompilerType.compiler_c1, 0, 0, 0, 0, 0, 0, 0⟩

/-- total(): the sort key. -/
def MemStatEntry.total (e : MemStatEntry) : Nat := e._total

/-- compare_by_size: descending comparison by _total, as in the source
(-1 when the argument has the smaller total). -/
def MemStatEntry.compare_by_size (a b : MemStatEntry) : Int :=
  if b._total < a._total then -1 else if b._total = a._total then 0 else 1

/-- The registry, modelled as an association list from identity to entry
(the hash table only changes lookup cost, not the mapping). -/
abbrev MemStatTable := List (FullMethodName × MemStatEntry)

/-- Hash-table lookup: the entry stored under a key, if any. -/
def MemStatTable.get (t : MemStatTable) (k : FullMethodName) : Option MemStatEntry :=
  match t with
  | [] => none
  | (k1, v) :: rest => if k1 = k then some v else MemStatTable.get rest k

/-- Hash-table put: replace the entry under the key, or insert it. -/
def MemStatTable.put (t : MemStatTable) (k : FullMethodName) (e : MemStatEntry) :
    MemStatTable :=
  match t with
  | [] => [(k, e)]
  | (k1, v) :: rest =>
      if k1 = k then (k, e) :: rest else (k1, v) :: MemStatTable.put rest k e

/-- number_of_entries(). -/
def MemStatTable.number_of_entries (t : MemStatTable) : Nat := t.length

/-- MemStatTable::add: look up the identity, create a fresh entry when
absent, then stamp time, thread and comptype, increment the recompile
counter, and overwrite the measurement fields. -/
def MemStatTable.add (t : MemStatTable) (fmn : FullMethodName)
    (comptype : CompilerType) (total na_at_peak ra_at_peak live_nodes_at_peak : Nat)
    (time thread : Nat) : MemStatTable :=
  let e0 := match t.get fmn with
    | none => MemStatEntry.new fmn
    | some e => e
  MemStatTable.put t fmn
    { e0 with
      _time := time, _thread := thread, _comptype := comptype,
      _num_recomp := e0._num_recomp + 1,
      _total := total, _na_at_peak := na_at_peak, _ra_at_peak := ra_at_peak,
      _live_nodes_at_peak := live_nodes_at_peak }

/-- MemStatTable::calc_flat_array: all entries whose total is at least
min_size, in table iteration order. -/
def MemStatTable.calc_flat_array (t : MemStatTable) (min_size : Nat) :
    List MemStatEntry :=
  (t.map Prod.snd).filter (fun e => decide (min_size ≤ e.total))

/-- The argument bundle of one add (upsert) call. -/
structure UpsertArgs where
  comptype : CompilerType
  total : Nat
  na_at_peak : Nat
  ra_at_peak : Nat
  live_nodes_at_peak : Nat
  time : Nat
  thread : Nat
deriving DecidableEq, Repr

/-- One add call with the given identity and arguments. -/
def addOne (t : MemStatTable) (fmn : FullMethodName) (a : UpsertArgs) : MemStatTable :=
  t.add fmn a.comptype a.total a.na_at_peak a.ra_at_peak a.live_nodes_at_peak
    a.time a.thread

/-- Repeated add calls for one fixed identity. -/
def runAddsSame (t : MemStatTable) (fmn : FullMethodName) (args : List UpsertArgs) :
    MemStatTable :=
  args.foldl (fun t1 a => addOne t1 fmn a) t

/-- A sequence of add calls with varying identities. -/
def runAdds (t : MemStatTable) (calls : List (FullMethodName × UpsertArgs)) :
    MemStatTable :=
  calls.foldl (fun t1 c => addOne t1 c.1 c.2) t

/-- Number of records stored under a key. -/
def countKey (t : MemStatTable) (k : FullMethodName) : Nat :=
  t.countP (fun p => decide (p.1 = k))

/-- Number of snapshot entries carrying a given method identity. -/
def countMethod (l : List MemStatEntry) (k : FullMethodName) : Nat :=
  l.countP (fun e => decide (e._method = k))

/-! The report: one constructor per kind of printed line. -/

/-- One line of print_all_by_size output. The legend block and each record
row are single events; numeric formatting (human_readable) is abstracted. -/
inductive ReportLine where
  | title
  | blank
  | unavailable
  | legend
  | cutoff (n : Nat)
  | header
  | countLine (num : Nat) (total : Nat)
  | row (e : MemStatEntry)
  | noEntries
  | noTable
deriving DecidableEq, Repr

/-- The QuickSort::sort call with comparator diff_entries_by_size, modelled
by insertion sort over the comparator order (both produce a permutation
that is sorted by the comparator; neither guarantees stability on ties). -/
def sortEntries (l : List MemStatEntry) : List MemStatEntry :=
  l.insertionSort (fun a b => a.compare_by_size b ≤ 0)

/-- CompilationMemoryStatistic::print_all_by_size, as the list of lines it
prints. The enabled flag and the (nullable) global table are passed
explicitly; human_readable only changes number formatting, which the line
model abstracts. -/
def CompilationMemoryStatistic.print_all_by_size (enabled : Bool)
    (table : Option MemStatTable) (human_readable : Bool) (min_size : Nat) :
    List ReportLine :=
  [ReportLine.title] ++
  (if enabled = false then [ReportLine.unavailable] else
    [ReportLine.blank, ReportLine.legend, ReportLine.blank] ++
    (if 0 < min_size then [ReportLine.cutoff min_size] else []) ++
    [ReportLine.blank, ReportLine.header] ++
    (match table with
     | some t =>
        let filtered := t.calc_flat_array min_size
        (if 0 < min_size
         then [ReportLine.countLine filtered.length t.number_of_entries]
         else []) ++
        (if 0 < filtered.length
         then (sortEntries filtered).map ReportLine.row
         else [ReportLine.noEntries])
     | none => [ReportLine.noTable]))

/-- The entry of a row line, if the line is a record row. -/
def rowOf : ReportLine → Option MemStatEntry
  | ReportLine.row e => some e
  | _ => none

/-- The record rows of a report, in print order. -/
def reportRows (out : List ReportLine) : List MemStatEntry :=
  out.filterMap rowOf

/-! Arithmetic helper lemmas. -/

theorem toSigned64_of_lt (n : Nat) (h : n < 2 ^ 63) : toSigned64 n = (n : Int) := by
  unfold toSigned64
  exact if_pos h

theorem wrapS64_of_bounds (x : Int) (h1 : -(2 ^ 63) ≤ x) (h2 : x < 2 ^ 63) :
    wrapS64 x = x := by
  unfold wrapS64
  have hsplit : (2 : Int) ^ 64 = 2 ^ 63 + 2 ^ 63 := by norm_num
  have hmod : (x + 2 ^ 63) % 2 ^ 64 = x + 2 ^ 63 :=
    Int.emod_eq_of_lt (by omega) (by omega)
  rw [hmod]
  omega

theorem addWrap_exact (c : Nat) (d : Int) (h0 : 0 ≤ (c : Int) + d)
    (h1 : (c : Int) + d < 2 ^ 64) : ((addWrap c d : Nat) : Int) = (c : Int) + d := by
  unfold addWrap
  rw [Int.emod_eq_of_lt h0 (by exact_mod_cast h1)]
  exact Int.toNat_of_nonneg h0

theorem deltasTakeSum_zero (cs : List AccountCall) : deltasTakeSum cs 0 = 0 := rfl

theorem deltasTakeSum_cons_succ (c : AccountCall) (cs : List AccountCall) (n : Nat) :
    deltasTakeSum (c :: cs) (n + 1) = c.delta + deltasTakeSum cs n := by
  simp [deltasTakeSum, List.take_succ_cons]

/-! Tracker invariant lemmas. -/

theorem account_peak_mono (s : ArenaStatCounter) (d : Int) (tag : ArenaTag)
    (env : CompileEnv) : s._peak ≤ ((s.account d tag env).1)._peak := by
  rw [account_fst_peak]
  split
  · omega
  · exact Nat.le_refl _

theorem account_peak_ge_current (s : ArenaStatCounter) (d : Int) (tag : ArenaTag)
    (env : CompileEnv) :
    ((s.account d tag env).1)._current ≤ ((s.account d tag env).1)._peak := by
  rw [account_fst_peak, account_fst_current]
  split
  · exact Nat.le_refl _
  · omega

theorem start_inv (s : ArenaStatCounter) :
    (s.start)._current ≤ (s.start)._peak ∧ (s.start)._start ≤ (s.start)._peak :=
  ⟨Nat.le_refl _, Nat.le_refl _⟩

theorem account_inv (s : ArenaStatCounter) (d : Int) (tag : ArenaTag) (env : CompileEnv)
    (h : s._start ≤ s._peak) :
    ((s.account d tag env).1)._current ≤ ((s.account d tag env).1)._peak ∧
    ((s.account d tag env).1)._start ≤ ((s.account d tag env).1)._peak := by
  refine ⟨account_peak_ge_current s d tag env, ?_⟩
  rw [account_fst_start]
  exact Nat.le_trans h (account_peak_mono s d tag env)

theorem runOps_inv (ops : List TrackerOp) : ∀ (s : ArenaStatCounter),
    s._current ≤ s._peak → s._start ≤ s._peak →
    (runOps s ops)._current ≤ (runOps s ops)._peak ∧
    (runOps s ops)._start ≤ (runOps s ops)._peak := by
  induction ops with
  | nil => intro s h1 h2; exact ⟨h1, h2⟩
  | cons op rest ih =>
    intro s h1 h2
    cases op with
    | opStart =>
      have hs := start_inv s
      exact ih s.start hs.1 hs.2
    | opAccount d tag env =>
      have ha := account_inv s d tag env h2
      exact ih _ ha.1 ha.2

/-! peak_since_start helper lemmas. -/

theorem psS_mono_of (s t : ArenaStatCounter) (hs : s._start = t._start)
    (hp : s._peak ≤ t._peak) : s.peak_since_start ≤ t.peak_since_start := by
  unfold ArenaStatCounter.peak_since_start
  rw [hs]
  split
  · split
    · omega
    · omega
  · exact Nat.zero_le _

theorem psS_eq_of (s t : ArenaStatCounter) (hs : s._start = t._start)
    (hp : s._peak = t._peak) : s.peak_since_start = t.peak_since_start := by
  unfold ArenaStatCounter.peak_since_start
  rw [hs, hp]

theorem psS_account_mono (s : ArenaStatCounter) (d : Int) (tag : ArenaTag)
    (env : CompileEnv) : s.peak_since_start ≤ ((s.account d tag env).1).peak_since_start :=
  psS_mono_of _ _ (account_fst_start s d tag env).symm (account_peak_mono s d tag env)

theorem psS_runAccounts_mono (cs : List AccountCall) : ∀ (s : ArenaStatCounter),
    s.peak_since_start ≤ (runAccounts s cs).peak_since_start := by
  induction cs with
  | nil => intro s; exact Nat.le_refl _
  | cons c rest ih =>
    intro s
    exact Nat.le_trans (psS_account_mono s c.delta c.tag c.env)
      (ih (s.account c.delta c.tag c.env).1)

/-! Scenario states for claim C1. -/

def c1s0 : ArenaStatCounter := ArenaStatCounter.init.start

def c1s1 (env : CompileEnv) : ArenaStatCounter :=
  (c1s0.account 1000 ArenaTag.tag_node env).1

def c1s2 (env : CompileEnv) : ArenaStatCounter :=
  ((c1s1 env).account 500 ArenaTag.tag_ra env).1

def c1s3 (env : CompileEnv) : ArenaStatCounter :=
  ((c1s2 env).account (-300) ArenaTag.tag_node env).1

def c1s4 (env : CompileEnv) : ArenaStatCounter :=
  ((c1s3 env).account 200 ArenaTag.tag_node env).1

theorem c1s1_eq (env : CompileEnv) :
    c1s1 env = ⟨1000, 0, 1000, 1000, 0, 1000, 0, liveNodesCapture env 0⟩ := rfl

set_option maxRecDepth 40000 in
theorem c1s2_eq (env : CompileEnv) :
    c1s2 env = ⟨1500, 0, 1500, 1000, 500, 1000, 500,
      liveNodesCapture env (liveNodesCapture env 0)⟩ := by
  unfold c1s2
  rw [c1s1_eq]
  rfl

set_option maxRecDepth 40000 in
theorem c1s3_eq (env : CompileEnv) :
    c1s3 env = ⟨1200, 0, 1500, 700, 500, 1000, 500,
      liveNodesCapture env (liveNodesCapture env 0)⟩ := by
  unfold c1s3
  rw [c1s2_eq]
  rfl

set_option maxRecDepth 40000 in
theorem c1s4_eq (env : CompileEnv) :
    c1s4 env = ⟨1400, 0, 1500, 900, 500, 1000, 500,
      liveNodesCapture env (liveNodesCapture env 0)⟩ := by
  unfold c1s4
  rw [c1s3_eq]
  rfl

set_option maxRecDepth 40000 in
/-- C1: from a fresh tracker with current = 0 after start(), the calls
account(+1000, node), account(+500, resource), account(-300, node),
account(+200, node) give peak = 1500, set by the second call (its rc is
true, the later two return false), peak_since_start() = 1500, and at-peak
snapshots node = 1000 and resource = 500, for every external environment. -/
theorem claim_C1 (env : CompileEnv) :
    ((c1s1 env).account 500 ArenaTag.tag_ra env).2 = true ∧
    (c1s2 env)._peak = 1500 ∧
    ((c1s2 env).account (-300) ArenaTag.tag_node env).2 = false ∧
    ((c1s3 env).account 200 ArenaTag.tag_node env).2 = false ∧
    (c1s4 env)._peak = 1500 ∧
    (c1s4 env).peak_since_start = 1500 ∧
    (c1s4 env)._na_at_peak = 1000 ∧
    (c1s4 env)._ra_at_peak = 500 := by
  refine ⟨?_, ?_, ?_, ?_, ?_, ?_, ?_, ?_⟩
  · rw [c1s1_eq]; rfl
  · rw [c1s2_eq]
  · rw [c1s2_eq]; rfl
  · rw [c1s3_eq]; rfl
  · rw [c1s4_eq]
  · rw [c1s4_eq]; rfl
  · rw [c1s4_eq]
  · rw [c1s4_eq]

/-- C5: peak_since_start is nonnegative after any call sequence, it is
monotonically non-decreasing across account calls, and an account call
whose updated running total does not exceed the current peak leaves it
unchanged. -/
theorem claim_C5 (s : ArenaStatCounter) (cs : List AccountCall) :
    0 ≤ (runAccounts s cs).peak_since_start ∧
    s.peak_since_start ≤ (runAccounts s cs).peak_since_start ∧
    ∀ (c : AccountCall), addWrap s._current c.delta ≤ s._peak →
      ((s.account c.delta c.tag c.env).1).peak_since_start = s.peak_since_start := by
  refine ⟨Nat.zero_le _, psS_runAccounts_mono cs s, ?_⟩
  intro c h
  refine psS_eq_of _ _ (account_fst_start s c.delta c.tag c.env) ?_
  rw [account_fst_peak]
  have : ¬ s._peak < addWrap s._current c.delta := Nat.not_lt.mpr h
  rw [if_neg this]

/-- Witness for claim_C5 at a concrete tracker and call. -/
theorem claim_C5_witness :
    ((({ _current := 10, _start := 0, _peak := 10, _na := 10, _ra := 0,
         _na_at_peak := 10, _ra_at_peak := 0, _live_nodes_at_peak := 0 } :
        ArenaStatCounter).account (-5) ArenaTag.tag_node ⟨none, none⟩).1).peak_since_start =
      ({ _current := 10, _start := 0, _peak := 10, _na := 10, _ra := 0,
         _na_at_peak := 10, _ra_at_peak := 0, _live_nodes_at_peak := 0 } :
        ArenaStatCounter).peak_since_start :=
  (claim_C5 _ []).2.2 ⟨-5, ArenaTag.tag_node, ⟨none, none⟩⟩ (by decide)

/-- C6: for every interleaving of start and account operations from the
freshly constructed tracker whose account steps satisfy the underflow
precondition, peak is at least current and at least start after every
operation (every prefix of the interleaving). -/
theorem claim_C6 (ops : List TrackerOp)
    (h : opsOK ArenaStatCounter.init ops = true) (n : Nat) :
    (runOps ArenaStatCounter.init (ops.take n))._current ≤
      (runOps ArenaStatCounter.init (ops.take n))._peak ∧
    (runOps ArenaStatCounter.init (ops.take n))._start ≤
      (runOps ArenaStatCounter.init (ops.take n))._peak :=
  runOps_inv (ops.take n) ArenaStatCounter.init (Nat.le_refl 0) (Nat.le_refl 0)

/-- Witness for claim_C6 on a concrete interleaving. -/
theorem claim_C6_witness :
    (runOps ArenaStatCounter.init
        (([TrackerOp.opAccount 7 ArenaTag.tag_node ⟨none, none⟩, TrackerOp.opStart,
           TrackerOp.opAccount (-3) ArenaTag.tag_ra ⟨none, none⟩]).take 3))._current ≤
      (runOps ArenaStatCounter.init
        (([TrackerOp.opAccount 7 ArenaTag.tag_node ⟨none, none⟩, TrackerOp.opStart,
           TrackerOp.opAccount (-3) ArenaTag.tag_ra ⟨none, none⟩]).take 3))._peak ∧
    (runOps ArenaStatCounter.init
        (([TrackerOp.opAccount 7 ArenaTag.tag_node ⟨none, none⟩, TrackerOp.opStart,
           TrackerOp.opAccount (-3) ArenaTag.tag_ra ⟨none, none⟩]).take 3))._start ≤
      (runOps ArenaStatCounter.init
        (([TrackerOp.opAccount 7 ArenaTag.tag_node ⟨none, none⟩, TrackerOp.opStart,
           TrackerOp.opAccount (-3) ArenaTag.tag_ra ⟨none, none⟩]).take 3))._peak :=
  claim_C6 _ (by decide) 3

/-- C10: start() sets _start and _peak to the running total and leaves the
running total, the category running totals, the at-peak snapshots and the
structural metric unchanged. -/
theorem claim_C10 (s : ArenaStatCounter) :
    (s.start)._start = s._current ∧ (s.start)._peak = s._current ∧
    (s.start)._current = s._current ∧ (s.start)._na = s._na ∧
    (s.start)._ra = s._ra ∧ (s.start)._na_at_peak = s._na_at_peak ∧
    (s.start)._ra_at_peak = s._ra_at_peak ∧
    (s.start)._live_nodes_at_peak = s._live_nodes_at_peak :=
  ⟨rfl, rfl, rfl, rfl, rfl, rfl, rfl, rfl⟩

/-! Claim C7: the structural metric outside the C2 backend. -/

/-- Environment of a C2 compilation whose live node count is 7. -/
def envC2x : CompileEnv := ⟨some CompilerType.compiler_c2, some 7⟩

/-- Environment of a C1 compilation (no live node counter). -/
def envC1x : CompileEnv := ⟨some CompilerType.compiler_c1, none⟩

/-- Counterexample to C7 as stated: a tracker records a peak during a C2
compilation (live node count 7), then is re-baselined by start() for a C1
compilation; the C1 window reaches a new peak, and the value recorded for
the C1 compilation is the stale 7, not zero. -/
theorem claim_C7_counterexample :
    ((((((ArenaStatCounter.init.start).account 100 ArenaTag.tag_node envC2x).1).start).account
        200 ArenaTag.tag_node envC1x).1)._live_nodes_at_peak = 7 ∧
    ((((((ArenaStatCounter.init.start).account 100 ArenaTag.tag_node envC2x).1).start).account
        200 ArenaTag.tag_node envC1x).1)._live_nodes_at_peak ≠ 0 := by
  constructor
  · decide
  · decide

/-- C7 amended: an account call whose environment is not the C2 backend
never updates the structural metric, so the metric retains its previous
value; in particular a tracker whose whole operation history is non-C2
reports zero, but a tracker previously used by a C2 compilation can
report the stale C2 value in a later non-C2 window (see the
counterexample). -/
theorem claim_C7 :
    (∀ (s : ArenaStatCounter) (d : Int) (tag : ArenaTag) (env : CompileEnv),
        env.compilerType ≠ some CompilerType.compiler_c2 →
        ((s.account d tag env).1)._live_nodes_at_peak = s._live_nodes_at_peak) ∧
    (∀ (ops : List TrackerOp), ops.all opNonC2 = true →
        (runOps ArenaStatCounter.init ops)._live_nodes_at_peak = 0) := by
  have hstep : ∀ (s : ArenaStatCounter) (d : Int) (tag : ArenaTag) (env : CompileEnv),
      env.compilerType ≠ some CompilerType.compiler_c2 →
      ((s.account d tag env).1)._live_nodes_at_peak = s._live_nodes_at_peak := by
    intro s d tag env h
    rw [account_fst_live]
    have hcap : liveNodesCapture env s._live_nodes_at_peak = s._live_nodes_at_peak := by
      unfold liveNodesCapture
      rw [if_neg h]
    split
    · exact hcap
    · rfl
  refine ⟨hstep, ?_⟩
  have hrun : ∀ (ops : List TrackerOp) (s : ArenaStatCounter), ops.all opNonC2 = true →
      (runOps s ops)._live_nodes_at_peak = s._live_nodes_at_peak := by
    intro ops
    induction ops with
    | nil => intro s _; rfl
    | cons op rest ih =>
      intro s hall
      rw [List.all_cons, Bool.and_eq_true] at hall
      cases op with
      | opStart =>
        exact ih s.start hall.2
      | opAccount d tag env =>
        have henv : env.compilerType ≠ some CompilerType.compiler_c2 := by
          have := hall.1
          unfold opNonC2 at this
          exact of_decide_eq_true this
        calc (runOps ((s.account d tag env).1) rest)._live_nodes_at_peak
            = ((s.account d tag env).1)._live_nodes_at_peak := ih _ hall.2
          _ = s._live_nodes_at_peak := hstep s d tag env henv
  intro ops hall
  exact hrun ops ArenaStatCounter.init hall

/-- Witness for claim_C7 at concrete inputs. -/
theorem claim_C7_witness :
    ((ArenaStatCounter.init.account 5 ArenaTag.tag_node envC1x).1)._live_nodes_at_peak =
      ArenaStatCounter.init._live_nodes_at_peak ∧
    (runOps ArenaStatCounter.init
        [TrackerOp.opStart, TrackerOp.opAccount 4 ArenaTag.tag_ra ⟨none, none⟩])._live_nodes_at_peak = 0 :=
  ⟨claim_C7.1 ArenaStatCounter.init 5 ArenaTag.tag_node envC1x (by decide),
   claim_C7.2 _ (by decide)⟩

/-! Claim C9: the underflow assert under the nonnegative-prefix precondition. -/

/-- A window whose running total stays nonnegative yet trips the assert:
deltas 2^63 - 1, then +2, then -1. Every running total is nonnegative
(the totals are 2^63 - 1, 2^63 + 1, 2^63), but at the third call the
signed reinterpretation (ssize_t)_current of the running total 2^63 + 1
is 1 - 2^63, and adding the delta -1 gives exactly -2^63: representable
in int64_t (no overflow, no wrap), and negative, so the assert expression
delta >= 0 || (ssize_t)_current + delta >= 0 is genuinely false. -/
def cs9 : List AccountCall :=
  [⟨(2 : Int) ^ 63 - 1, ArenaTag.tag_other, ⟨none, none⟩⟩,
   ⟨2, ArenaTag.tag_other, ⟨none, none⟩⟩,
   ⟨-1, ArenaTag.tag_other, ⟨none, none⟩⟩]

/-- Counterexample to C9 as stated: the nonnegative-running-total
precondition holds for every count of leading calls of cs9 from a fresh
started tracker, yet the underflow assert fails (at the third call). -/
theorem claim_C9_counterexample :
    (∀ n, n ≤ cs9.length → 0 ≤ ((ArenaStatCounter.init.start)._current : Int) + deltasTakeSum cs9 n) ∧
    accountsOK ArenaStatCounter.init.start cs9 = false := by
  constructor
  · decide
  · decide

/-- C9 amended: when every running total of the window additionally stays
below 2^63 (so that the ssize_t reinterpretation is the identity and the
signed addition in the assert stays in the representable range), the
assert holds at every call, and the running total tracks the exact
integer sum, never wrapping. -/
theorem claim_C9 (s0 : ArenaStatCounter) (cs : List AccountCall)
    (h : ∀ n, n ≤ cs.length →
        0 ≤ (s0._current : Int) + deltasTakeSum cs n ∧
        (s0._current : Int) + deltasTakeSum cs n < 2 ^ 63) :
    accountsOK s0 cs = true ∧
    ((runAccounts s0 cs)._current : Int) = (s0._current : Int) + deltasTakeSum cs cs.length := by
  induction cs generalizing s0 with
  | nil =>
    refine ⟨rfl, ?_⟩
    simp [runAccounts, deltasTakeSum]
  | cons c rest ih =>
    have h0 := h 0 (Nat.zero_le _)
    rw [deltasTakeSum_zero] at h0
    have h1 := h 1 (Nat.succ_le_succ (Nat.zero_le _))
    rw [deltasTakeSum_cons_succ, deltasTakeSum_zero] at h1
    have hc0lt : s0._current < 2 ^ 63 := by exact_mod_cast h0.2
    have hassert : accountAssertOKb s0 c.delta = true := by
      unfold accountAssertOKb
      rw [toSigned64_of_lt _ hc0lt]
      have hp63 : (0 : Int) < 2 ^ 63 := by norm_num
      have hrep : wrapS64 ((s0._current : Int) + c.delta) =
          (s0._current : Int) + c.delta :=
        wrapS64_of_bounds _ (by omega) (by omega)
      rw [hrep]
      rw [Bool.or_eq_true, decide_eq_true_eq, decide_eq_true_eq]
      omega
    have hcur : (((s0.account c.delta c.tag c.env).1)._current : Int) =
        (s0._current : Int) + c.delta := by
      rw [account_fst_current]
      refine addWrap_exact _ _ (by omega) (by
        have : ((2 : Int) ^ 63) < 2 ^ 64 := by norm_num
        omega)
    have hrest : ∀ n, n ≤ rest.length →
        0 ≤ ((((s0.account c.delta c.tag c.env).1)._current : Int)) + deltasTakeSum rest n ∧
        ((((s0.account c.delta c.tag c.env).1)._current : Int)) + deltasTakeSum rest n < 2 ^ 63 := by
      intro n hn
      have := h (n + 1) (Nat.succ_le_succ hn)
      rw [deltasTakeSum_cons_succ] at this
      rw [hcur]
      constructor
      · omega
      · omega
    have ihr := ih (s0.account c.delta c.tag c.env).1 hrest
    constructor
    · show (accountAssertOKb s0 c.delta && accountsOK (s0.account c.delta c.tag c.env).1 rest) = true
      rw [hassert, ihr.1]
      rfl
    · show ((runAccounts (s0.account c.delta c.tag c.env).1 rest)._current : Int) =
        (s0._current : Int) + deltasTakeSum (c :: rest) (rest.length + 1)
      rw [ihr.2, hcur, deltasTakeSum_cons_succ]
      omega

/-- Witness for claim_C9 on a concrete balanced window. -/
theorem claim_C9_witness :
    accountsOK ArenaStatCounter.init
        [⟨5, ArenaTag.tag_node, ⟨none, none⟩⟩, ⟨-3, ArenaTag.tag_ra, ⟨none, none⟩⟩] = true ∧
    ((runAccounts ArenaStatCounter.init
        [⟨5, ArenaTag.tag_node, ⟨none, none⟩⟩, ⟨-3, ArenaTag.tag_ra, ⟨none, none⟩⟩])._current : Int) =
      (ArenaStatCounter.init._current : Int) + deltasTakeSum
        [⟨5, ArenaTag.tag_node, ⟨none, none⟩⟩, ⟨-3, ArenaTag.tag_ra, ⟨none, none⟩⟩] 2 :=
  claim_C9 ArenaStatCounter.init _ (by decide)

/-! Association-table lemmas for get, put, and key counts. -/

theorem get_put_self (t : MemStatTable) (k : FullMethodName) (e : MemStatEntry) :
    (MemStatTable.put t k e).get k = some e := by
  induction t with
  | nil => simp [MemStatTable.put, MemStatTable.get]
  | cons p rest ih =>
    rcases p with ⟨k1, v⟩
    by_cases hk : k1 = k
    · simp [MemStatTable.put, MemStatTable.get, hk]
    · simp [MemStatTable.put, MemStatTable.get, hk, ih]

theorem get_put_ne (t : MemStatTable) (k k1 : FullMethodName) (e : MemStatEntry)
    (h : k ≠ k1) : (MemStatTable.put t k e).get k1 = t.get k1 := by
  induction t with
  | nil => simp [MemStatTable.put, MemStatTable.get, h]
  | cons p rest ih =>
    rcases p with ⟨k2, v⟩
    by_cases hk : k2 = k
    · subst hk
      simp [MemStatTable.put, MemStatTable.get, h]
    · simp [MemStatTable.put, MemStatTable.get, hk, ih]

theorem countKey_nil (k : FullMethodName) : countKey [] k = 0 := rfl

theorem countKey_cons (p : FullMethodName × MemStatEntry) (t : MemStatTable)
    (k : FullMethodName) :
    countKey (p :: t) k = (if p.1 = k then 1 else 0) + countKey t k := by
  unfold countKey
  rw [List.countP_cons]
  by_cases h : p.1 = k
  · simp [h]
    omega
  · simp [h]

theorem get_none_countKey_zero (t : MemStatTable) (k : FullMethodName)
    (h : t.get k = none) : countKey t k = 0 := by
  induction t with
  | nil => rfl
  | cons p rest ih =>
    rcases p with ⟨k1, v⟩
    unfold MemStatTable.get at h
    by_cases hk : k1 = k
    · rw [if_pos hk] at h
      exact absurd h (by simp)
    · rw [if_neg hk] at h
      rw [countKey_cons, if_neg hk, ih h]

theorem countKey_put_none (t : MemStatTable) (k : FullMethodName) (e : MemStatEntry)
    (h : t.get k = none) : countKey (MemStatTable.put t k e) k = countKey t k + 1 := by
  induction t with
  | nil => simp [MemStatTable.put, countKey_cons, countKey_nil]
  | cons p rest ih =>
    rcases p with ⟨k1, v⟩
    unfold MemStatTable.get at h
    by_cases hk : k1 = k
    · rw [if_pos hk] at h
      exact absurd h (by simp)
    · rw [if_neg hk] at h
      unfold MemStatTable.put
      rw [if_neg hk]
      rw [countKey_cons, countKey_cons, if_neg hk, ih h]
      omega

theorem countKey_put_some (t : MemStatTable) (k : FullMethodName) (e v : MemStatEntry)
    (h : t.get k = some v) : countKey (MemStatTable.put t k e) k = countKey t k := by
  induction t with
  | nil => exact absurd h (by simp [MemStatTable.get])
  | cons p rest ih =>
    rcases p with ⟨k1, v1⟩
    unfold MemStatTable.get at h
    by_cases hk : k1 = k
    · unfold MemStatTable.put
      rw [if_pos hk]
      rw [countKey_cons, countKey_cons, if_pos hk, if_pos rfl]
    · rw [if_neg hk] at h
      unfold MemStatTable.put
      rw [if_neg hk]
      rw [countKey_cons, countKey_cons, if_neg hk, ih h]

theorem countKey_put_ne (t : MemStatTable) (k k1 : FullMethodName) (e : MemStatEntry)
    (h : k ≠ k1) : countKey (MemStatTable.put t k e) k1 = countKey t k1 := by
  induction t with
  | nil => simp [MemStatTable.put, countKey_cons, countKey_nil, h]
  | cons p rest ih =>
    rcases p with ⟨k2, v⟩
    by_cases hk : k2 = k
    · subst hk
      unfold MemStatTable.put
      rw [if_pos rfl]
      rw [countKey_cons, countKey_cons]
    · unfold MemStatTable.put
      rw [if_neg hk]
      rw [countKey_cons, countKey_cons, ih]

theorem get_some_mem (t : MemStatTable) (k : FullMethodName) (v : MemStatEntry)
    (h : t.get k = some v) : (k, v) ∈ t := by
  induction t with
  | nil => exact absurd h (by simp [MemStatTable.get])
  | cons p rest ih =>
    rcases p with ⟨k1, v1⟩
    unfold MemStatTable.get at h
    by_cases hk : k1 = k
    · rw [if_pos hk] at h
      subst hk
      rw [Option.some_inj] at h
      subst h
      exact List.mem_cons_self _ _
    · rw [if_neg hk] at h
      exact List.mem_cons_of_mem _ (ih h)

theorem mem_put (t : MemStatTable) (k : FullMethodName) (e : MemStatEntry)
    (p : FullMethodName × MemStatEntry) (h : p ∈ MemStatTable.put t k e) :
    p ∈ t ∨ p = (k, e) := by
  induction t with
  | nil =>
    simp [MemStatTable.put] at h
    exact Or.inr h
  | cons q rest ih =>
    rcases q with ⟨k1, v⟩
    by_cases hk : k1 = k
    · unfold MemStatTable.put at h
      rw [if_pos hk] at h
      rcases List.mem_cons.mp h with h1 | h1
      · exact Or.inr h1
      · exact Or.inl (List.mem_cons_of_mem _ h1)
    · unfold MemStatTable.put at h
      rw [if_neg hk] at h
      rcases List.mem_cons.mp h with h1 | h1
      · exact Or.inl (h1 ▸ List.mem_cons_self _ _)
      · rcases ih h1 with h2 | h2
        · exact Or.inl (List.mem_cons_of_mem _ h2)
        · exact Or.inr h2

/-! Lemmas about one add call. -/

/-- The entry stored under the identity right after one add call, as a
function of the previously stored entry. -/
def updatedEntry (prev : Option MemStatEntry) (fmn : FullMethodName)
    (a : UpsertArgs) : MemStatEntry :=
  match prev with
  | none => ⟨fmn, a.comptype, a.time, 1, a.thread, a.total, a.na_at_peak,
      a.ra_at_peak, a.live_nodes_at_peak⟩
  | some e => ⟨e._method, a.comptype, a.time, e._num_recomp + 1, a.thread, a.total,
      a.na_at_peak, a.ra_at_peak, a.live_nodes_at_peak⟩

theorem addOne_get_self (t : MemStatTable) (fmn : FullMethodName) (a : UpsertArgs) :
    (addOne t fmn a).get fmn = some (updatedEntry (t.get fmn) fmn a) := by
  unfold addOne MemStatTable.add updatedEntry
  cases h : t.get fmn with
  | none => simp [h, get_put_self, MemStatEntry.new]
  | some e => simp [h, get_put_self]

theorem addOne_get_ne (t : MemStatTable) (fmn k : FullMethodName) (a : UpsertArgs)
    (h : fmn ≠ k) : (addOne t fmn a).get k = t.get k := by
  unfold addOne MemStatTable.add
  exact get_put_ne _ _ _ _ h

theorem addOne_countKey_none (t : MemStatTable) (fmn : FullMethodName)
    (a : UpsertArgs) (h : t.get fmn = none) :
    countKey (addOne t fmn a) fmn = countKey t fmn + 1 := by
  unfold addOne MemStatTable.add
  exact countKey_put_none _ _ _ h

theorem addOne_countKey_some (t : MemStatTable) (fmn : FullMethodName)
    (a : UpsertArgs) (e : MemStatEntry) (h : t.get fmn = some e) :
    countKey (addOne t fmn a) fmn = countKey t fmn := by
  unfold addOne MemStatTable.add
  exact countKey_put_some _ _ _ _ h

theorem runAddsSame_cons (t : MemStatTable) (fmn : FullMethodName) (a : UpsertArgs)
    (rest : List UpsertArgs) :
    runAddsSame t fmn (a :: rest) = runAddsSame (addOne t fmn a) fmn rest := rfl

/-- Repeated adds for an identity already present with a well-formed entry
keep exactly the same key count and advance the recompile counter by the
number of calls. -/
theorem runAddsSame_stable (fmn : FullMethodName) :
    ∀ (args : List UpsertArgs) (t : MemStatTable) (e : MemStatEntry),
    t.get fmn = some e → e._method = fmn →
    ∃ e1 : MemStatEntry, (runAddsSame t fmn args).get fmn = some e1 ∧
      e1._method = fmn ∧ e1._num_recomp = e._num_recomp + args.length ∧
      countKey (runAddsSame t fmn args) fmn = countKey t fmn := by
  intro args
  induction args with
  | nil =>
    intro t e hget hm
    exact ⟨e, hget, hm, by simp, rfl⟩
  | cons a rest ih =>
    intro t e hget hm
    have hget1 : (addOne t fmn a).get fmn = some (updatedEntry (some e) fmn a) := by
      rw [addOne_get_self, hget]
    have hck1 : countKey (addOne t fmn a) fmn = countKey t fmn :=
      addOne_countKey_some t fmn a e hget
    rcases ih (addOne t fmn a) (updatedEntry (some e) fmn a) hget1 (by
        unfold updatedEntry
        exact hm) with ⟨e1, hg, hmeth, hrec, hcnt⟩
    refine ⟨e1, ?_, hmeth, ?_, ?_⟩
    · rw [runAddsSame_cons]
      exact hg
    · rw [hrec]
      unfold updatedEntry
      simp [List.length_cons]
      omega
    · rw [runAddsSame_cons, hcnt, hck1]

/-- C2: starting from any registry without the identity, N consecutive add
calls (N = firstCalls.length + 1) for that identity leave exactly one
record under it, whose recompile counter is N and whose stamped and
measurement fields are those of the last call. -/
theorem claim_C2 (t0 : MemStatTable) (fmn : FullMethodName)
    (firstCalls : List UpsertArgs) (lastCall : UpsertArgs)
    (h : t0.get fmn = none) :
    countKey (runAddsSame t0 fmn (firstCalls ++ [lastCall])) fmn = 1 ∧
    (runAddsSame t0 fmn (firstCalls ++ [lastCall])).get fmn = some
      { _method := fmn, _comptype := lastCall.comptype, _time := lastCall.time,
        _num_recomp := firstCalls.length + 1, _thread := lastCall.thread,
        _total := lastCall.total, _na_at_peak := lastCall.na_at_peak,
        _ra_at_peak := lastCall.ra_at_peak,
        _live_nodes_at_peak := lastCall.live_nodes_at_peak } := by
  have hck0 : countKey t0 fmn = 0 := get_none_countKey_zero t0 fmn h
  cases firstCalls with
  | nil =>
    have hget : (addOne t0 fmn lastCall).get fmn =
        some (updatedEntry none fmn lastCall) := by
      rw [addOne_get_self, h]
    constructor
    · show countKey (addOne t0 fmn lastCall) fmn = 1
      rw [addOne_countKey_none t0 fmn lastCall h, hck0]
    · show (addOne t0 fmn lastCall).get fmn = _
      rw [hget]
      rfl
  | cons a rest =>
    have hget1 : (addOne t0 fmn a).get fmn = some (updatedEntry none fmn a) := by
      rw [addOne_get_self, h]
    have hck1 : countKey (addOne t0 fmn a) fmn = 1 := by
      rw [addOne_countKey_none t0 fmn a h, hck0]
    rcases runAddsSame_stable fmn rest (addOne t0 fmn a) (updatedEntry none fmn a)
        hget1 rfl with ⟨e1, hg, hmeth, hrec, hcnt⟩
    have hrec1 : e1._num_recomp = rest.length + 1 := by
      rw [hrec]
      simp [updatedEntry]
      omega
    have hfold : runAddsSame t0 fmn ((a :: rest) ++ [lastCall]) =
        addOne (runAddsSame (addOne t0 fmn a) fmn rest) fmn lastCall := by
      rw [show (a :: rest) ++ [lastCall] = a :: (rest ++ [lastCall]) from rfl,
        runAddsSame_cons]
      unfold runAddsSame
      rw [List.foldl_append]
      rfl
    constructor
    · rw [hfold, addOne_countKey_some _ _ _ e1 hg, hcnt, hck1]
    · rw [hfold, addOne_get_self, hg]
      simp only [updatedEntry]
      rw [hmeth, hrec1]
      simp [List.length_cons]

/-- Witness for claim_C2: two adds of the same identity into the empty
registry. -/
theorem claim_C2_witness :
    countKey (runAddsSame ([] : MemStatTable) ⟨1, 2, 3⟩
        ([⟨CompilerType.compiler_c1, 1500, 700, 800, 0, 11, 21⟩] ++
         [⟨CompilerType.compiler_c2, 900, 400, 500, 42, 12, 22⟩])) ⟨1, 2, 3⟩ = 1 ∧
    (runAddsSame ([] : MemStatTable) ⟨1, 2, 3⟩
        ([⟨CompilerType.compiler_c1, 1500, 700, 800, 0, 11, 21⟩] ++
         [⟨CompilerType.compiler_c2, 900, 400, 500, 42, 12, 22⟩])).get ⟨1, 2, 3⟩ = some
      { _method := ⟨1, 2, 3⟩, _comptype := CompilerType.compiler_c2, _time := 12,
        _num_recomp := 2,
        _thread := 22, _total := 900, _na_at_peak := 400, _ra_at_peak := 500,
        _live_nodes_at_peak := 42 } :=
  claim_C2 [] ⟨1, 2, 3⟩ _ _ (by decide)

/-! Registry-wide invariants for claim C4. -/

theorem runAdds_cons (t : MemStatTable) (c : FullMethodName × UpsertArgs)
    (rest : List (FullMethodName × UpsertArgs)) :
    runAdds t (c :: rest) = runAdds (addOne t c.1 c.2) rest := rfl

theorem get_some_countKey_pos (t : MemStatTable) (k : FullMethodName)
    (v : MemStatEntry) (h : t.get k = some v) : 1 ≤ countKey t k := by
  have hm : (k, v) ∈ t := get_some_mem t k v h
  have : 0 < countKey t k := by
    unfold countKey
    rw [List.countP_pos_iff]
    exact ⟨(k, v), hm, by simp⟩
  omega

/-- Every stored entry carries its own key as method identity. -/
def goodTable (t : MemStatTable) : Prop := ∀ p ∈ t, p.2._method = p.1

theorem good_addOne (t : MemStatTable) (fmn : FullMethodName) (a : UpsertArgs)
    (hg : goodTable t) : goodTable (addOne t fmn a) := by
  intro p hp
  unfold addOne MemStatTable.add at hp
  rcases mem_put _ _ _ _ hp with h1 | h1
  · exact hg p h1
  · subst h1
    cases hget : MemStatTable.get t fmn with
    | none => rfl
    | some e => exact hg (fmn, e) (get_some_mem t fmn e hget)

theorem good_runAdds (calls : List (FullMethodName × UpsertArgs)) :
    ∀ (t : MemStatTable), goodTable t → goodTable (runAdds t calls) := by
  induction calls with
  | nil => intro t h; exact h
  | cons c rest ih =>
    intro t h
    rw [runAdds_cons]
    exact ih _ (good_addOne t c.1 c.2 h)

/-- Every key is stored at most once. -/
def uniqTable (t : MemStatTable) : Prop := ∀ k, countKey t k ≤ 1

theorem uniq_addOne (t : MemStatTable) (fmn : FullMethodName) (a : UpsertArgs)
    (hu : uniqTable t) : uniqTable (addOne t fmn a) := by
  intro k
  by_cases hk : fmn = k
  · subst hk
    cases hget : MemStatTable.get t fmn with
    | none =>
      rw [addOne_countKey_none t fmn a hget, get_none_countKey_zero t fmn hget]
    | some e =>
      rw [addOne_countKey_some t fmn a e hget]
      exact hu fmn
  · unfold addOne MemStatTable.add
    rw [countKey_put_ne _ _ _ _ hk]
    exact hu k

theorem uniq_runAdds (calls : List (FullMethodName × UpsertArgs)) :
    ∀ (t : MemStatTable), uniqTable t → uniqTable (runAdds t calls) := by
  induction calls with
  | nil => intro t h; exact h
  | cons c rest ih =>
    intro t h
    rw [runAdds_cons]
    exact ih _ (uniq_addOne t c.1 c.2 h)

theorem runAdds_get_none_iff (calls : List (FullMethodName × UpsertArgs)) :
    ∀ (t : MemStatTable) (k : FullMethodName),
    (runAdds t calls).get k = none ↔ (t.get k = none ∧ k ∉ calls.map Prod.fst) := by
  induction calls with
  | nil =>
    intro t k
    simp [runAdds]
  | cons c rest ih =>
    intro t k
    rw [runAdds_cons, ih]
    by_cases hk : c.1 = k
    · subst hk
      rw [addOne_get_self]
      simp
    · rw [addOne_get_ne t c.1 k c.2 hk]
      have hk2 : ¬ k = c.1 := fun hc => hk hc.symm
      simp only [List.map_cons, List.mem_cons, not_or]
      tauto

theorem calc_flat_array_zero (t : MemStatTable) :
    t.calc_flat_array 0 = t.map Prod.snd := by
  unfold MemStatTable.calc_flat_array
  rw [List.filter_eq_self]
  intro a _
  simp

theorem countMethod_calc_zero (t : MemStatTable) (k : FullMethodName)
    (hg : goodTable t) : countMethod (t.calc_flat_array 0) k = countKey t k := by
  rw [calc_flat_array_zero]
  unfold countMethod countKey
  rw [List.countP_map]
  refine List.countP_congr ?_
  intro p hp
  have := hg p hp
  simp only [Function.comp]
  rw [this]

/-- C4: calc_flat_array returns exactly the entries whose total is at
least min_size (membership characterization over the stored entries), and
a snapshot with min_size 0 of a registry built by upserts from empty holds
exactly one entry per distinct identity ever upserted. -/
theorem claim_C4 :
    (∀ (t : MemStatTable) (min_size : Nat) (e : MemStatEntry),
        e ∈ t.calc_flat_array min_size ↔ (e ∈ t.map Prod.snd ∧ min_size ≤ e.total)) ∧
    (∀ (calls : List (FullMethodName × UpsertArgs)) (fmn : FullMethodName),
        countMethod ((runAdds [] calls).calc_flat_array 0) fmn =
          if fmn ∈ calls.map Prod.fst then 1 else 0) := by
  constructor
  · intro t min_size e
    unfold MemStatTable.calc_flat_array
    rw [List.mem_filter]
    simp
  · intro calls fmn
    have hgood : goodTable (runAdds [] calls) :=
      good_runAdds calls [] (by intro p hp; cases hp)
    have huniq : uniqTable (runAdds [] calls) :=
      uniq_runAdds calls [] (by intro k; rw [countKey_nil]; omega)
    have hiff : (runAdds [] calls).get fmn = none ↔ fmn ∉ calls.map Prod.fst := by
      rw [runAdds_get_none_iff calls [] fmn]
      simp [MemStatTable.get]
    rw [countMethod_calc_zero _ _ hgood]
    by_cases hmem : fmn ∈ calls.map Prod.fst
    · rw [if_pos hmem]
      have hnn : (runAdds [] calls).get fmn ≠ none := by
        intro hc
        exact (hiff.mp hc) hmem
      rcases Option.ne_none_iff_exists.mp hnn with ⟨v, hv⟩
      have h1 := get_some_countKey_pos _ _ _ hv.symm
      have h2 := huniq fmn
      omega
    · rw [if_neg hmem]
      exact get_none_countKey_zero _ _ (hiff.mpr hmem)

/-! Sorting order lemmas for the report. -/

theorem compare_by_size_le_iff (a b : MemStatEntry) :
    a.compare_by_size b ≤ 0 ↔ b._total ≤ a._total := by
  unfold MemStatEntry.compare_by_size
  split_ifs with h1 h2 <;> constructor <;> intro h <;> omega

instance : DecidableRel (fun a b : MemStatEntry => a.compare_by_size b ≤ 0) :=
  fun _ _ => inferInstanceAs (Decidable (_ ≤ _))

instance : IsTotal MemStatEntry (fun a b => a.compare_by_size b ≤ 0) :=
  ⟨fun a b => by
    simp only [compare_by_size_le_iff]
    omega⟩

instance : IsTrans MemStatEntry (fun a b => a.compare_by_size b ≤ 0) :=
  ⟨fun a b c hab hbc => by
    simp only [compare_by_size_le_iff] at hab hbc ⊢
    omega⟩

theorem sortEntries_sorted (l : List MemStatEntry) :
    List.Pairwise (fun a b => b._total ≤ a._total) (sortEntries l) := by
  have h := List.sorted_insertionSort (fun a b : MemStatEntry => a.compare_by_size b ≤ 0) l
  exact List.Pairwise.imp (fun hab => (compare_by_size_le_iff _ _).1 hab) h

theorem reportRows_append (l1 l2 : List ReportLine) :
    reportRows (l1 ++ l2) = reportRows l1 ++ reportRows l2 := by
  unfold reportRows
  rw [List.filterMap_append]

theorem filterMap_rowOf_comp (l : List MemStatEntry) :
    List.filterMap (rowOf ∘ ReportLine.row) l = l := by
  have h : rowOf ∘ ReportLine.row = some := by
    funext e
    rfl
  rw [h, List.filterMap_some]

theorem reportRows_map_row (l : List MemStatEntry) :
    reportRows (l.map ReportLine.row) = l := by
  unfold reportRows
  rw [List.filterMap_map, filterMap_rowOf_comp]

/-! Scenario registry for claim C3: three records with totals 5000, 1000
and 3000 under distinct identities. -/

def c3calls : List (FullMethodName × UpsertArgs) :=
  [(⟨1, 1, 1⟩, ⟨CompilerType.compiler_c1, 5000, 0, 0, 0, 0, 0⟩),
   (⟨2, 2, 2⟩, ⟨CompilerType.compiler_c1, 1000, 0, 0, 0, 0, 0⟩),
   (⟨3, 3, 3⟩, ⟨CompilerType.compiler_c1, 3000, 0, 0, 0, 0, 0⟩)]

def c3out : List ReportLine :=
  CompilationMemoryStatistic.print_all_by_size true (some (runAdds [] c3calls))
    false 2000

/-- C3: report rows always appear in non-increasing order of total peak
bytes, and for the registry with totals 5000, 1000, 3000 and cutoff 2000
the report prints exactly the 5000-total record first and the 3000-total
record second, together with the count line (2/3). -/
theorem claim_C3 :
    (∀ (enabled : Bool) (table : Option MemStatTable) (hr : Bool) (min_size : Nat),
        List.Pairwise (fun a b => b._total ≤ a._total)
          (reportRows (CompilationMemoryStatistic.print_all_by_size
            enabled table hr min_size))) ∧
    (reportRows c3out).map MemStatEntry.total = [5000, 3000] ∧
    (reportRows c3out).map MemStatEntry._method = [⟨1, 1, 1⟩, ⟨3, 3, 3⟩] ∧
    ReportLine.countLine 2 3 ∈ c3out := by
  refine ⟨?_, by decide, by decide, by decide⟩
  intro enabled table hr min_size
  cases enabled with
  | false =>
    show List.Pairwise _ (reportRows [ReportLine.title, ReportLine.unavailable])
    exact List.Pairwise.nil
  | true =>
    unfold CompilationMemoryStatistic.print_all_by_size
    cases table with
    | none =>
      simp only [reportRows_append]
      by_cases hmin : 0 < min_size <;>
        simp only [hmin, if_true, if_false, reportRows_append] <;>
        exact List.Pairwise.nil
    | some t =>
      by_cases hmin : 0 < min_size <;>
        by_cases hflt : 0 < (t.calc_flat_array min_size).length <;>
        simp [hmin, hflt, reportRows_append, reportRows_map_row, reportRows,
          filterMap_rowOf_comp, sortEntries_sorted, rowOf]

/-- A line that is part of the legend block, the column header, or a
record row. -/
def legendHeaderOrRow : ReportLine → Bool
  | ReportLine.legend => true
  | ReportLine.header => true
  | ReportLine.row _ => true
  | _ => false

/-- C8: with collection never enabled, print_all_by_size prints exactly
the title line followed by the (unavailable) notice and returns; the
output is independent of the registry contents and contains no legend,
header, or record row. -/
theorem claim_C8 (table : Option MemStatTable) (hr : Bool) (min_size : Nat) :
    CompilationMemoryStatistic.print_all_by_size false table hr min_size =
      [ReportLine.title, ReportLine.unavailable] ∧
    (CompilationMemoryStatistic.print_all_by_size false table hr
        min_size).countP legendHeaderOrRow = 0 := by
  constructor
  · rfl
  · rfl
